import Mathlib

/-!
Verification of the LightOS model compiler (`tools/model_compiler.py`).

The Python source is shallowly embedded: each optimization pass becomes a
pure Lean function on an explicit `ComputationalGraph` value, Python floats
used for simulated timings become rationals, Python dicts become association
lists, and the in-place list mutation of the fusion loop becomes structural
recursion on the node list.
-/

namespace LightOS

/-- Operation types in the computational graph (`OpType` enum). -/
inductive OpType where
  | MATMUL
  | CONV2D
  | RELU
  | GELU
  | SILU
  | SOFTMAX
  | LAYERNORM
  | BATCHNORM
  | RMSNORM
  | ATTENTION
  | MULTI_HEAD_ATTENTION
  | ADD
  | MUL
  | FUSED_MATMUL_RELU
  | FUSED_MATMUL_GELU
  | FUSED_CONV_BATCHNORM_RELU
  | FUSED_LAYERNORM_ATTENTION
  deriving DecidableEq, Repr

/-- Supported data types (`DataType` enum). -/
inductive DataType where
  | FP32
  | FP16
  | BF16
  | FP8
  | INT8
  | INT4
  deriving DecidableEq, Repr

/-- Tensor shape information (`TensorShape` dataclass). -/
structure TensorShape where
  dims : List Nat
  dtype : DataType
  deriving DecidableEq, Repr

/-- `TensorShape.total_elements`: product of the dimensions. -/
def TensorShape.total_elements (s : TensorShape) : Nat :=
  s.dims.foldl (· * ·) 1

/-- Node attribute dictionaries `Dict[str, any]`: association lists from
string keys to (numeric) attribute values, in insertion order. -/
abbrev AttrDict := List (String × Nat)

/-- Python dict lookup. -/
def attrLookup (d : AttrDict) (k : String) : Option Nat :=
  match d with
  | [] => none
  | (k', v) :: rest => if k' = k then some v else attrLookup rest k

/-- Python dict merge `\x7b**a, **b\x7d`: keys of `a` in order with values
overridden by `b` where present, then keys of `b` not in `a`, in order. -/
def pyDictMerge (a b : AttrDict) : AttrDict :=
  a.map (fun p => (p.1, (attrLookup b p.1).getD p.2)) ++
    b.filter (fun p => (attrLookup a p.1).isNone)

/-- Node in the computational graph (`GraphNode` dataclass).  The two
profiling floats are embedded as rationals. -/
structure GraphNode where
  id : Nat
  op_type : OpType
  name : String
  inputs : List Nat
  outputs : List Nat
  attributes : AttrDict
  execution_time_ms : ℚ := 0
  memory_usage_mb : ℚ := 0
  deriving DecidableEq, Repr

/-- Computational graph (`ComputationalGraph` dataclass); `__post_init__`
sets `optimized = False`. -/
structure ComputationalGraph where
  nodes : List GraphNode
  tensors : List (Nat × TensorShape)
  input_ids : List Nat
  output_ids : List Nat
  optimized : Bool := false
  deriving DecidableEq, Repr

/-- Compilation statistics counters (`CompilationStats.__init__`). -/
structure CompilationStats where
  original_ops : Nat := 0
  optimized_ops : Nat := 0
  ops_fused : Nat := 0
  constants_folded : Nat := 0
  dead_ops_removed : Nat := 0
  compilation_time_ms : ℚ := 0
  deriving DecidableEq, Repr

/-- Fan-out of a tensor across the whole graph: the number of node-inputs
referencing it (spec §3 "Fan-out map"). -/
def fanOut (g : ComputationalGraph) (t : Nat) : Nat :=
  (g.nodes.map (fun n => n.inputs.count t)).sum

/-! ## Constant folding (`ModelCompiler._constant_folding`)

The Python pass scans `graph.nodes` left to right with a `constant_tensors`
set that starts empty (the seeding from model literals is an unimplemented
stub in the source).  A node whose op is Add or Multiply and whose inputs
all lie in the set is marked for removal and its outputs join the set;
marked nodes are then removed.  The net effect is the single left-to-right
sweep below, which also returns the number of folded (removed) nodes. -/

/-- One left-to-right constant-folding sweep with constant set `cs`. -/
def cfoldSweep (cs : List Nat) : List GraphNode → List GraphNode × Nat
  | [] => ([], 0)
  | n :: rest =>
    if (n.op_type = OpType.ADD ∨ n.op_type = OpType.MUL) ∧
        ∀ i ∈ n.inputs, i ∈ cs then
      let r := cfoldSweep (cs ++ n.outputs) rest
      (r.1, r.2 + 1)
    else
      let r := cfoldSweep cs rest
      (n :: r.1, r.2)

/-- `_constant_folding`: graph after the pass, with folded-node count. -/
def constant_folding (g : ComputationalGraph) : ComputationalGraph × Nat :=
  let r := cfoldSweep [] g.nodes
  ({ g with nodes := r.1 }, r.2)

/-! ## Dead code elimination (`ModelCompiler._dead_code_elimination`)

The Python pass computes a `reachable` set of tensor ids by a worklist
started from `graph.output_ids`; popping a tensor `t`, it adds the inputs
of every node having `t` among its outputs.  Python's `list.append` /
`list.pop()` pair is a stack, embedded here with the head of the list as
the stack top; the worklist loop takes explicit fuel, and a fuel value
sufficient for saturation is proved below. -/

/-- Add the candidate tensors `is` to `reach`, recording newly added ones
in `app` (the Python inner `for inp in node.inputs` loop). -/
def pushNew (reach app : List Nat) : List Nat → List Nat × List Nat
  | [] => (reach, app)
  | i :: is' =>
    if i ∈ reach then pushNew reach app is'
    else pushNew (reach ++ [i]) (app ++ [i]) is'

/-- Process one popped tensor `t` against every node (the Python
`for node in graph.nodes` loop). -/
def dceVisit (t : Nat) (reach app : List Nat) :
    List GraphNode → List Nat × List Nat
  | [] => (reach, app)
  | n :: ns =>
    if t ∈ n.outputs then
      let r := pushNew reach app n.inputs
      dceVisit t r.1 r.2 ns
    else dceVisit t reach app ns

/-- The worklist loop (`while worklist:`). `wl` is a stack with its top at
the head; newly appended tensors are pushed so that the most recently
appended is popped first, as in Python. -/
def dceLoop (nodes : List GraphNode) : Nat → List Nat → List Nat → List Nat
  | 0, reach, _ => reach
  | _ + 1, reach, [] => reach
  | fuel + 1, reach, t :: wl =>
    let r := dceVisit t reach [] nodes
    dceLoop nodes fuel r.1 (r.2.reverse ++ wl)

/-- Fuel sufficient to saturate the worklist: the initial worklist length
plus the total number of node-input references in the graph. -/
def dceFuel (g : ComputationalGraph) : Nat :=
  g.output_ids.length + (g.nodes.map (fun n => n.inputs.length)).sum

/-- The `reachable` set computed by `_dead_code_elimination`. -/
def reachList (g : ComputationalGraph) : List Nat :=
  dceLoop g.nodes (dceFuel g) g.output_ids g.output_ids

/-- `_dead_code_elimination`: keep the nodes with a reachable output,
and count the removed ones. -/
def dead_code_elimination (g : ComputationalGraph) : ComputationalGraph × Nat :=
  let reach := reachList g
  let kept := g.nodes.filter (fun n => n.outputs.any (· ∈ reach))
  ({ g with nodes := kept }, g.nodes.length - kept.length)

/-! ## Operator fusion (`ModelCompiler._operator_fusion`)

The Python pass walks the node list with an index `i`; on a pattern match
it overwrites `nodes[i]` with the fused node, pops the consumed successor
node(s), and re-examines position `i` (`continue`); otherwise `i += 1`.
This is exactly the structural recursion below, which also counts fused
operations as the source does (`+1` per pair, `+2` per triple). -/

/-- `_can_fuse`: node1's single output must be node2's single input. -/
def can_fuse (node1 node2 : GraphNode) : Bool :=
  node1.outputs.length = 1 ∧ node2.inputs.length = 1 ∧
    node1.outputs.head? = node2.inputs.head?

/-- `_can_fuse_triple`. -/
def can_fuse_triple (node1 node2 node3 : GraphNode) : Bool :=
  can_fuse node1 node2 && can_fuse node2 node3

/-- `_fuse_matmul_activation`: note that only the MatMul's attribute
dictionary is carried over. -/
def fuse_matmul_activation (matmul activation : GraphNode)
    (fused_type : OpType) : GraphNode :=
  { id := matmul.id
    op_type := fused_type
    name := "fused_" ++ matmul.name ++ "_" ++ activation.name
    inputs := matmul.inputs
    outputs := activation.outputs
    attributes := matmul.attributes }

/-- `_fuse_layernorm_attention`: the attribute dictionaries are merged. -/
def fuse_layernorm_attention (layernorm attention : GraphNode) : GraphNode :=
  { id := layernorm.id
    op_type := OpType.FUSED_LAYERNORM_ATTENTION
    name := "fused_ln_attn_" ++ toString layernorm.id
    inputs := layernorm.inputs
    outputs := attention.outputs
    attributes := pyDictMerge layernorm.attributes attention.attributes }

/-- `_fuse_conv_bn_relu`: only the Conv2D and BatchNorm attribute
dictionaries are merged; the ReLU's are dropped. -/
def fuse_conv_bn_relu (conv bn relu : GraphNode) : GraphNode :=
  { id := conv.id
    op_type := OpType.FUSED_CONV_BATCHNORM_RELU
    name := "fused_conv_bn_relu_" ++ toString conv.id
    inputs := conv.inputs
    outputs := relu.outputs
    attributes := pyDictMerge conv.attributes bn.attributes }

/-- The fusion sweep over the node list, with the fused-operation count.
Every step of the source's `while` loop either advances `i` past a node or
shortens the list, so the list length strictly decreases at each recursive
call here; the sweep is run with that length as fuel (`fuseSweep` below),
which is proved sufficient, making the function structurally recursive and
hence kernel-computable. -/
def fuseSweepF : Nat → List GraphNode → List GraphNode × Nat
  | 0, l => (l, 0)
  | _ + 1, [] => ([], 0)
  | _ + 1, [n] => ([n], 0)
  | fuel + 1, node1 :: node2 :: rest =>
    if node1.op_type = OpType.MATMUL ∧ node2.op_type = OpType.RELU ∧
        can_fuse node1 node2 then
      let r := fuseSweepF fuel
        (fuse_matmul_activation node1 node2 OpType.FUSED_MATMUL_RELU :: rest)
      (r.1, r.2 + 1)
    else if node1.op_type = OpType.MATMUL ∧ node2.op_type = OpType.GELU ∧
        can_fuse node1 node2 then
      let r := fuseSweepF fuel
        (fuse_matmul_activation node1 node2 OpType.FUSED_MATMUL_GELU :: rest)
      (r.1, r.2 + 1)
    else if node1.op_type = OpType.LAYERNORM ∧
        (node2.op_type = OpType.ATTENTION ∨
          node2.op_type = OpType.MULTI_HEAD_ATTENTION) ∧
        can_fuse node1 node2 then
      let r := fuseSweepF fuel (fuse_layernorm_attention node1 node2 :: rest)
      (r.1, r.2 + 1)
    else
      match rest with
      | node3 :: rest2 =>
        if node1.op_type = OpType.CONV2D ∧ node2.op_type = OpType.BATCHNORM ∧
            node3.op_type = OpType.RELU ∧ can_fuse_triple node1 node2 node3 then
          let r := fuseSweepF fuel (fuse_conv_bn_relu node1 node2 node3 :: rest2)
          (r.1, r.2 + 2)
        else
          let r := fuseSweepF fuel (node2 :: node3 :: rest2)
          (node1 :: r.1, r.2)
      | [] =>
        let r := fuseSweepF fuel [node2]
        (node1 :: r.1, r.2)

/-- The fusion sweep, with fuel instantiated to the (sufficient) list
length. -/
def fuseSweep (l : List GraphNode) : List GraphNode × Nat :=
  fuseSweepF l.length l

/-- `_operator_fusion`. -/
def operator_fusion (g : ComputationalGraph) : ComputationalGraph × Nat :=
  let r := fuseSweep g.nodes
  ({ g with nodes := r.1 }, r.2)

/-- `_layout_optimization`: returns the graph unchanged. -/
def layout_optimization (g : ComputationalGraph) : ComputationalGraph := g

/-- `_kernel_fusion_experimental`: returns the graph unchanged. -/
def kernel_fusion_experimental (g : ComputationalGraph) : ComputationalGraph := g

/-! ## `ModelCompiler.compile`

The wall-clock duration measured by `time.perf_counter` is not modelled by
the pure embedding; `compileS` below takes it as the parameter `dt` and
threads the mutable `self.stats` explicitly. -/

/-- The graph computed by `compile` at a given optimization level. -/
def compile (lvl : Nat) (g : ComputationalGraph) : ComputationalGraph :=
  let g1 := if 1 ≤ lvl then
      (dead_code_elimination (constant_folding g).1).1
    else g
  let g2 := if 2 ≤ lvl then
      layout_optimization (operator_fusion g1).1
    else g1
  let g3 := if 3 ≤ lvl then kernel_fusion_experimental g2 else g2
  { g3 with optimized := true }

/-- `compile` together with the statistics update: counters that the
source bumps with `+=` accumulate onto the incoming stats `s`; the
original/optimized op counts and the compilation time are overwritten. -/
def compileS (lvl : Nat) (dt : ℚ) (s : CompilationStats)
    (g : ComputationalGraph) : ComputationalGraph × CompilationStats :=
  let s0 := { s with original_ops := g.nodes.length }
  let p1 := if 1 ≤ lvl then
      let cf := constant_folding g
      let dc := dead_code_elimination cf.1
      (dc.1, { s0 with constants_folded := s0.constants_folded + cf.2,
                       dead_ops_removed := s0.dead_ops_removed + dc.2 })
    else (g, s0)
  let p2 := if 2 ≤ lvl then
      let fu := operator_fusion p1.1
      (layout_optimization fu.1,
        { p1.2 with ops_fused := p1.2.ops_fused + fu.2 })
    else p1
  let p3 := if 3 ≤ lvl then (kernel_fusion_experimental p2.1, p2.2) else p2
  ({ p3.1 with optimized := true },
    { p3.2 with optimized_ops := p3.1.nodes.length,
                compilation_time_ms := dt })

/-! ## Profiling (`ModelCompiler.profile_graph`)

The source mutates each node's `execution_time_ms` in place with a
simulated time, accumulates the times per op kind in a dict (keyed by the
op-type name, equivalently the op type itself), and returns a report.  The
embedding returns the updated graph alongside the report. -/

/-- Simulated execution time assigned to a node by `profile_graph`. -/
def simTime (op : OpType) : ℚ :=
  if op = OpType.MATMUL ∨ op = OpType.CONV2D then 5
  else if op = OpType.FUSED_MATMUL_RELU ∨ op = OpType.FUSED_MATMUL_GELU ∨
      op = OpType.FUSED_CONV_BATCHNORM_RELU ∨
      op = OpType.FUSED_LAYERNORM_ATTENTION then 7 / 2
  else 1 / 2

/-- Append a time to the per-op-kind dict (`op_times`), inserting the key
at the end on first occurrence, as a Python dict does. -/
def opTimesAdd (d : List (OpType × List ℚ)) (k : OpType) (t : ℚ) :
    List (OpType × List ℚ) :=
  match d with
  | [] => [(k, [t])]
  | (k', ts) :: rest =>
    if k' = k then (k', ts ++ [t]) :: rest
    else (k', ts) :: opTimesAdd rest k t

/-- The per-op-kind time dict accumulated over the node list. -/
def opTimes (nodes : List GraphNode) : List (OpType × List ℚ) :=
  nodes.foldl (fun d n => opTimesAdd d n.op_type (simTime n.op_type)) []

/-- Per-op-kind entry of the profiling report. -/
structure OpStat where
  count : Nat
  total_time_ms : ℚ
  avg_time_ms : ℚ
  percentage : ℚ
  deriving DecidableEq, Repr

/-- The profiling report returned by `profile_graph`. -/
structure ProfileReport where
  total_execution_time_ms : ℚ
  total_memory_mb : ℚ
  num_operations : Nat
  op_breakdown : List (OpType × OpStat)
  deriving DecidableEq, Repr

/-- `profile_graph`: the graph with every node's `execution_time_ms`
overwritten by its simulated time, and the aggregated report. -/
def profile_graph (g : ComputationalGraph) : ComputationalGraph × ProfileReport :=
  let nodes' := g.nodes.map
    (fun n => { n with execution_time_ms := simTime n.op_type })
  let total_time : ℚ := (nodes'.map (fun n => n.execution_time_ms)).sum
  let stats := (opTimes g.nodes).map (fun p =>
    (p.1, { count := p.2.length
            total_time_ms := p.2.sum
            avg_time_ms := p.2.sum / p.2.length
            percentage := if 0 < total_time then p.2.sum / total_time * 100
              else 0 : OpStat }))
  ({ g with nodes := nodes' },
    { total_execution_time_ms := total_time
      total_memory_mb := 0
      num_operations := nodes'.length
      op_breakdown := stats })

/-! ## Concrete example graphs -/

/-- Scenario 1 of the spec: MatMul(a,b)→c, ReLU(c)→d with a=0, b=1, c=2,
d=3 and d the sole graph output. -/
def gScenario1 : ComputationalGraph :=
  { nodes :=
      [{ id := 0, op_type := OpType.MATMUL, name := "mm", inputs := [0, 1],
         outputs := [2], attributes := [] },
       { id := 1, op_type := OpType.RELU, name := "act", inputs := [2],
         outputs := [3], attributes := [] }]
    tensors := [(0, ⟨[1, 4], DataType.FP16⟩), (1, ⟨[4, 4], DataType.FP16⟩)]
    input_ids := [0, 1]
    output_ids := [3] }

/-- Scenario 1 extended with a second consumer of the intermediate tensor
2 (a Softmax producing graph output 4), so tensor 2 has fan-out 2. -/
def gFanOut : ComputationalGraph :=
  { nodes :=
      [{ id := 0, op_type := OpType.MATMUL, name := "mm", inputs := [0, 1],
         outputs := [2], attributes := [] },
       { id := 1, op_type := OpType.RELU, name := "act", inputs := [2],
         outputs := [3], attributes := [] },
       { id := 2, op_type := OpType.SOFTMAX, name := "sec", inputs := [2],
         outputs := [4], attributes := [] }]
    tensors := []
    input_ids := [0, 1]
    output_ids := [3, 4] }

/-- Scenario 3 of the spec: Add(lit1,lit2)→x, MatMul(x,w)→y with lit1=1,
lit2=2, x=3, w=4, y=5; tensors 1 and 2 are the literal inputs. -/
def gScenario3 : ComputationalGraph :=
  { nodes :=
      [{ id := 0, op_type := OpType.ADD, name := "addc", inputs := [1, 2],
         outputs := [3], attributes := [] },
       { id := 1, op_type := OpType.MATMUL, name := "mm", inputs := [3, 4],
         outputs := [5], attributes := [] }]
    tensors := []
    input_ids := [1, 2, 4]
    output_ids := [5] }

/-- A graph in which tensor 2 has two producers (violating SSA): the
MatMul of a fusible MatMul→ReLU chain and an extra Add node. -/
def gDualProducer : ComputationalGraph :=
  { nodes :=
      [{ id := 0, op_type := OpType.MATMUL, name := "mm", inputs := [0, 1],
         outputs := [2], attributes := [] },
       { id := 1, op_type := OpType.RELU, name := "act", inputs := [2],
         outputs := [3], attributes := [] },
       { id := 2, op_type := OpType.ADD, name := "alt", inputs := [0],
         outputs := [2], attributes := [] }]
    tensors := []
    input_ids := [0, 1]
    output_ids := [3] }

/-- A single node with a live output (1, a graph output) and a dead
output (2, read by nobody). -/
def gDeadOutput : ComputationalGraph :=
  { nodes :=
      [{ id := 0, op_type := OpType.MATMUL, name := "mm", inputs := [],
         outputs := [1, 2], attributes := [] }]
    tensors := []
    input_ids := []
    output_ids := [1] }

/-- Scenario 1 with attributes on both nodes of the fusible chain. -/
def gAttr : ComputationalGraph :=
  { nodes :=
      [{ id := 0, op_type := OpType.MATMUL, name := "mm", inputs := [0, 1],
         outputs := [2], attributes := [("m", 1)] },
       { id := 1, op_type := OpType.RELU, name := "act", inputs := [2],
         outputs := [3], attributes := [("alpha", 7)] }]
    tensors := []
    input_ids := [0, 1]
    output_ids := [3] }

/-- A graph whose only node is an input-less Add producing the declared
graph output 1. -/
def gConstOut : ComputationalGraph :=
  { nodes :=
      [{ id := 0, op_type := OpType.ADD, name := "konst", inputs := [],
         outputs := [1], attributes := [] }]
    tensors := []
    input_ids := []
    output_ids := [1] }

/-! ## Specification-side definitions -/

/-- All node-input tensor references of a node list. -/
def allInputs (nodes : List GraphNode) : List Nat :=
  (nodes.map (fun n => n.inputs)).flatten

/-- Backward reachability of a tensor from the declared outputs `outs`:
the least set containing `outs` and closed under adding the inputs of any
node one of whose outputs is already reachable.  This is the
specification of liveness that `_dead_code_elimination`'s worklist is
meant to compute. -/
inductive Reachable (nodes : List GraphNode) (outs : List Nat) : Nat → Prop
  | base {t : Nat} : t ∈ outs → Reachable nodes outs t
  | step {t u : Nat} {n : GraphNode} : n ∈ nodes → t ∈ n.inputs →
      u ∈ n.outputs → Reachable nodes outs u → Reachable nodes outs t

/-- Lookup in the per-op-kind time dict. -/
def otLookup (d : List (OpType × List ℚ)) (k : OpType) : Option (List ℚ) :=
  match d with
  | [] => none
  | (k', ts) :: rest => if k' = k then some ts else otLookup rest k

/-! ## Theorems: concrete evaluations -/

/-- C4: on the Scenario 1 graph [MatMul(a,b)→c, ReLU(c)→d] with outputs
{d} and c having no other consumer, compiling at optimization level 2
yields exactly one node, of kind FUSED_MATMUL_RELU, with inputs [a,b] and
outputs [d]. -/
theorem C4_scenario1_fusion :
    ∃ n : GraphNode, (compile 2 gScenario1).nodes = [n] ∧
      n.op_type = OpType.FUSED_MATMUL_RELU ∧
      n.inputs = [0, 1] ∧ n.outputs = [3] :=
  ⟨{ id := 0, op_type := OpType.FUSED_MATMUL_RELU, name := "fused_mm_act",
     inputs := [0, 1], outputs := [3], attributes := [] },
   by decide, rfl, rfl, rfl⟩

/-- C1: the code contradicts the fan-out soundness requirement.  In
`gFanOut` the intermediate tensor 2 of the MatMul→ReLU chain has fan-out
2 (the Softmax node also reads it), yet `compile` at level 2 fuses the
chain anyway: the MatMul and ReLU nodes are gone, the fused node is
present, and tensor 2 — still read by the surviving Softmax — is no
longer produced by any node. -/
theorem C1_fusion_ignores_fanout :
    fanOut gFanOut 2 = 2 ∧
    (compile 2 gFanOut).nodes =
      [{ id := 0, op_type := OpType.FUSED_MATMUL_RELU, name := "fused_mm_act",
         inputs := [0, 1], outputs := [3], attributes := [] },
       { id := 2, op_type := OpType.SOFTMAX, name := "sec", inputs := [2],
         outputs := [4], attributes := [] }] ∧
    (∀ n ∈ (compile 2 gFanOut).nodes, 2 ∉ n.outputs) ∧
    (∃ n ∈ (compile 2 gFanOut).nodes, 2 ∈ n.inputs) := by decide

/-- C2: the code contradicts constant-folding completeness.  On the
Scenario 3 graph [Add(lit1,lit2)→x, MatMul(x,w)→y], one `compile` call at
level 1 leaves the node list unchanged — the Add node is still present,
nothing is folded (the pass's constant set is never seeded), and no
literal-producing replacement for x exists. -/
theorem C2_constant_folding_stub :
    (compile 1 gScenario3).nodes = gScenario3.nodes ∧
    (constant_folding gScenario3).2 = 0 := by decide

/-- C6 counterexample: compiling `gDualProducer` (tensor 2 has two
producers) twice at level 2 does not reproduce the first result — the
first compile fuses MatMul→ReLU, orphaning the alternative producer of
tensor 2, and the second compile's DCE then deletes it. -/
theorem C6_counterexample :
    compile 2 (compile 2 gDualProducer) ≠ compile 2 gDualProducer := by decide

/-- C7 counterexample: `profile_graph` is not side-effect-free on the
graph — on Scenario 1's graph it overwrites the MatMul node's
`execution_time_ms` (0 before, 5 after), so the node list changes. -/
theorem C7_counterexample :
    (profile_graph gScenario1).1 ≠ gScenario1 ∧
    (profile_graph gScenario1).1.nodes.map
        (fun n => n.execution_time_ms) = [5, 1 / 2] := by
  constructor
  · intro h
    have h2 := congrArg
      (fun g => g.nodes.map (fun n => n.execution_time_ms)) h
    simp [profile_graph, gScenario1, simTime] at h2
  · simp [profile_graph, gScenario1, simTime]

/-- C8 counterexample: two identical level-1 `compile` runs (fresh copy
of the same one-node foldable graph, same duration) leave different stats
depending on history: the second run reads `constants_folded = 2` though
that single run folded exactly one node, because the counter accumulates
with `+=` across runs. -/
theorem C8_counterexample :
    (compileS 1 0 (compileS 1 0 {} gConstOut).2 gConstOut).2 ≠
      (compileS 1 0 {} gConstOut).2 ∧
    (compileS 1 0 (compileS 1 0 {} gConstOut).2 gConstOut).2.constants_folded
      = 2 ∧
    (constant_folding gConstOut).2 = 1 := by decide

/-- C5 counterexample: on the Scenario 1 graph with attributes
\x7b"m": 1\x7d on the MatMul and \x7b"alpha": 7\x7d on the ReLU, the
replacement node produced by level-2 fusion carries only the MatMul's
attributes, not the union of all matched nodes' attributes. -/
theorem C5_counterexample :
    (compile 2 gAttr).nodes.map (fun n => n.attributes) = [[("m", 1)]] ∧
    pyDictMerge [("m", 1)] [("alpha", 7)] = [("m", 1), ("alpha", 7)] ∧
    (compile 2 gAttr).nodes.map (fun n => n.attributes) ≠
      [pyDictMerge [("m", 1)] [("alpha", 7)]] := by
  decide

/-! ## Constant-folding lemmas -/

/-- The folding sweep only ever deletes nodes. -/
theorem cfoldSweep_sublist (cs : List Nat) (l : List GraphNode) :
    (cfoldSweep cs l).1.Sublist l := by
  induction l generalizing cs with
  | nil => simp [cfoldSweep]
  | cons n rest ih =>
    simp only [cfoldSweep]
    split
    · exact ((ih _).trans (List.sublist_cons_self n rest))
    · exact (ih cs).cons₂ n

/-- No Add/Multiply node with an empty input list survives the folding
sweep: its inputs are vacuously all in the constant set. -/
theorem cfoldSweep_no_nullary (cs : List Nat) (l : List GraphNode) :
    ∀ n ∈ (cfoldSweep cs l).1,
      (n.op_type = OpType.ADD ∨ n.op_type = OpType.MUL) → n.inputs ≠ [] := by
  induction l generalizing cs with
  | nil => simp [cfoldSweep]
  | cons m rest ih =>
    simp only [cfoldSweep]
    split
    · exact ih _
    · rename_i hcond
      intro n hn hop
      rcases List.mem_cons.1 hn with rfl | hn'
      · intro hnil
        exact hcond ⟨hop, by simp [hnil]⟩
      · exact ih cs n hn' hop

/-- On a list with no input-less Add/Multiply node, the folding sweep
with an empty constant set does nothing: the constant set can never be
seeded. -/
theorem cfoldSweep_noop (l : List GraphNode)
    (h : ∀ n ∈ l, (n.op_type = OpType.ADD ∨ n.op_type = OpType.MUL) →
      n.inputs ≠ []) :
    cfoldSweep [] l = (l, 0) := by
  induction l with
  | nil => simp [cfoldSweep]
  | cons n rest ih =>
    have hn : ¬ ((n.op_type = OpType.ADD ∨ n.op_type = OpType.MUL) ∧
        ∀ i ∈ n.inputs, i ∈ ([] : List Nat)) := by
      rintro ⟨hop, hin⟩
      refine h n (List.mem_cons_self n rest) hop ?_
      cases hni : n.inputs with
      | nil => rfl
      | cons a as => exact absurd (hin a (by simp [hni])) (by simp)
    rw [cfoldSweep, if_neg hn, ih (fun m hm => h m (List.mem_cons_of_mem n hm))]

/-- C10: in the constant-folding pass a node whose inputs list is empty
and whose op kind is Add or Multiply is vacuously all-inputs-constant and
is deleted with no replacement node created (the pass only ever deletes),
so if every producer of a tensor — even a declared graph output — is such
a node, the folded graph has no producer for it. -/
theorem C10_nullary_nodes_deleted (g : ComputationalGraph) :
    (constant_folding g).1.nodes.Sublist g.nodes ∧
    (∀ n ∈ (constant_folding g).1.nodes,
      (n.op_type = OpType.ADD ∨ n.op_type = OpType.MUL) → n.inputs ≠ []) ∧
    (∀ t : Nat, (∀ n ∈ g.nodes, t ∈ n.outputs →
        (n.op_type = OpType.ADD ∨ n.op_type = OpType.MUL) ∧ n.inputs = []) →
      ∀ n ∈ (constant_folding g).1.nodes, t ∉ n.outputs) := by
  refine ⟨cfoldSweep_sublist [] g.nodes, cfoldSweep_no_nullary [] g.nodes,
    fun t ht n hn hout => ?_⟩
  have hng : n ∈ g.nodes := (cfoldSweep_sublist [] g.nodes).subset hn
  obtain ⟨hop, hnil⟩ := ht n hng hout
  exact cfoldSweep_no_nullary [] g.nodes n hn hop hnil

/-- C10 witness: on the one-node graph whose input-less Add produces the
declared graph output 1, folding deletes the node and output 1 is left
with no producer. -/
theorem C10_witness :
    (constant_folding gConstOut).1.nodes.Sublist gConstOut.nodes ∧
    ∀ n ∈ (constant_folding gConstOut).1.nodes, 1 ∉ n.outputs :=
  ⟨(C10_nullary_nodes_deleted gConstOut).1,
   (C10_nullary_nodes_deleted gConstOut).2.2 1 (by decide)⟩

/-! ## Compile frame lemmas -/

/-- Every pass leaves the tensor table and the input/output id lists
untouched; `compile` additionally forces the `optimized` flag. -/
theorem compile_frame (lvl : Nat) (g : ComputationalGraph) :
    (compile lvl g).tensors = g.tensors ∧
    (compile lvl g).input_ids = g.input_ids ∧
    (compile lvl g).output_ids = g.output_ids ∧
    (compile lvl g).optimized = true := by
  unfold compile
  split <;> split <;> split <;>
    simp [constant_folding, dead_code_elimination, operator_fusion,
      layout_optimization, kernel_fusion_experimental]

/-- C9: for every graph and every optimization level, `compile` leaves
the tensor table and the graph input/output id lists unchanged, and the
returned graph's `optimized` flag is `true` — also at level 0 and on an
empty graph. -/
theorem C9_compile_preserves_interface (g : ComputationalGraph) (lvl : Nat) :
    (compile lvl g).tensors = g.tensors ∧
    (compile lvl g).input_ids = g.input_ids ∧
    (compile lvl g).output_ids = g.output_ids ∧
    (compile lvl g).optimized = true :=
  compile_frame lvl g

/-- C8 (amended): after a `compile` call the original/optimized node
counts and the compilation time describe that run alone (they are
overwritten), while the fused/folded/dead counters accumulate onto
whatever the stats held before the call. -/
theorem C8_stats_accumulate (lvl : Nat) (dt : ℚ) (s : CompilationStats)
    (g : ComputationalGraph) :
    (compileS lvl dt s g).2.original_ops = g.nodes.length ∧
    (compileS lvl dt s g).2.optimized_ops =
      (compileS lvl dt s g).1.nodes.length ∧
    (compileS lvl dt s g).2.compilation_time_ms = dt ∧
    (compileS lvl dt s g).1 = compile lvl g ∧
    (compileS lvl dt s g).2.constants_folded =
      s.constants_folded + (if 1 ≤ lvl then (constant_folding g).2 else 0) ∧
    (compileS lvl dt s g).2.dead_ops_removed =
      s.dead_ops_removed +
        (if 1 ≤ lvl then (dead_code_elimination (constant_folding g).1).2
          else 0) ∧
    (compileS lvl dt s g).2.ops_fused =
      s.ops_fused +
        (if 2 ≤ lvl then
          (operator_fusion (if 1 ≤ lvl then
            (dead_code_elimination (constant_folding g).1).1 else g)).2
          else 0) := by
  unfold compileS compile
  split <;> split <;> split <;>
    simp [layout_optimization, kernel_fusion_experimental]

/-! ## Operator-fusion lemmas -/

/-- The fusion sweep is insensitive to the fuel, provided the fuel covers
the list length (each loop step strictly shortens the list). -/
theorem fuseSweepF_fuel (a : Nat) : ∀ (b : Nat) (l : List GraphNode),
    l.length ≤ a → l.length ≤ b → fuseSweepF a l = fuseSweepF b l := by
  induction a with
  | zero =>
    intro b l h1 _
    have hl : l = [] := List.length_eq_zero.1 (Nat.le_zero.1 h1)
    subst hl
    cases b <;> rfl
  | succ a ih =>
    intro b l h1 h2
    cases l with
    | nil => cases b <;> rfl
    | cons n1 t =>
      cases t with
      | nil =>
        cases b with
        | zero => simp at h2
        | succ b => rfl
      | cons n2 rest =>
        cases b with
        | zero => simp at h2
        | succ b =>
          cases rest with
          | nil =>
            simp only [List.length_cons] at h1 h2
            simp only [fuseSweepF]
            split
            · rw [ih b _ (by simp; omega) (by simp; omega)]
            · split
              · rw [ih b _ (by simp; omega) (by simp; omega)]
              · split
                · rw [ih b _ (by simp; omega) (by simp; omega)]
                · rw [ih b [n2] (by simp; omega) (by simp; omega)]
          | cons n3 rest2 =>
            simp only [List.length_cons] at h1 h2
            simp only [fuseSweepF]
            split
            · rw [ih b _ (by simp; omega) (by simp; omega)]
            · split
              · rw [ih b _ (by simp; omega) (by simp; omega)]
              · split
                · rw [ih b _ (by simp; omega) (by simp; omega)]
                · split
                  · rw [ih b _ (by simp; omega) (by simp; omega)]
                  · rw [ih b _ (by simp; omega) (by simp; omega)]

/-- A matched MatMul+ReLU/GELU head is collapsed to the replacement node
and the sweep re-examines the shortened list, whatever follows. -/
theorem fuseSweep_matmul_step (n1 n2 : GraphNode) (rest : List GraphNode)
    (ft : OpType)
    (h1 : n1.op_type = OpType.MATMUL)
    (h2 : n2.op_type = OpType.RELU ∧ ft = OpType.FUSED_MATMUL_RELU ∨
          n2.op_type = OpType.GELU ∧ ft = OpType.FUSED_MATMUL_GELU)
    (h3 : can_fuse n1 n2 = true) :
    fuseSweep (n1 :: n2 :: rest) =
      ((fuseSweep (fuse_matmul_activation n1 n2 ft :: rest)).1,
       (fuseSweep (fuse_matmul_activation n1 n2 ft :: rest)).2 + 1) := by
  rcases h2 with ⟨h2, rfl⟩ | ⟨h2, rfl⟩
  · simp [fuseSweep, fuseSweepF, h1, h2, h3]
  · have hne : n2.op_type ≠ OpType.RELU := by simp [h2]
    simp [fuseSweep, fuseSweepF, h1, h2, h3, hne]

/-- A matched LayerNorm+Attention head is collapsed likewise. -/
theorem fuseSweep_layernorm_step (n1 n2 : GraphNode) (rest : List GraphNode)
    (h1 : n1.op_type = OpType.LAYERNORM)
    (h2 : n2.op_type = OpType.ATTENTION ∨
          n2.op_type = OpType.MULTI_HEAD_ATTENTION)
    (h3 : can_fuse n1 n2 = true) :
    fuseSweep (n1 :: n2 :: rest) =
      ((fuseSweep (fuse_layernorm_attention n1 n2 :: rest)).1,
       (fuseSweep (fuse_layernorm_attention n1 n2 :: rest)).2 + 1) := by
  have hne : n1.op_type ≠ OpType.MATMUL := by simp [h1]
  simp [fuseSweep, fuseSweepF, hne, h1, h2, h3]

/-- A matched Conv2D+BatchNorm+ReLU head is collapsed to the replacement
node, eliding both interior nodes. -/
theorem fuseSweep_conv_step (n1 n2 n3 : GraphNode) (rest : List GraphNode)
    (h1 : n1.op_type = OpType.CONV2D)
    (h2 : n2.op_type = OpType.BATCHNORM)
    (h3 : n3.op_type = OpType.RELU)
    (h4 : can_fuse_triple n1 n2 n3 = true) :
    fuseSweep (n1 :: n2 :: n3 :: rest) =
      ((fuseSweep (fuse_conv_bn_relu n1 n2 n3 :: rest)).1,
       (fuseSweep (fuse_conv_bn_relu n1 n2 n3 :: rest)).2 + 2) := by
  have hne : n1.op_type ≠ OpType.MATMUL := by simp [h1]
  have hne2 : n1.op_type ≠ OpType.LAYERNORM := by simp [h1]
  have hfuel : fuseSweepF (rest.length + 2)
      (fuse_conv_bn_relu n1 n2 n3 :: rest) =
      fuseSweepF (rest.length + 1) (fuse_conv_bn_relu n1 n2 n3 :: rest) :=
    fuseSweepF_fuel _ _ _ (by simp) (by simp)
  simp only [fuseSweep, List.length_cons]
  rw [fuseSweepF]
  simp only [hne, hne2, h1, h2, h3, h4, false_and, and_false, if_false,
    if_true, and_self, and_true, true_and, if_pos]
  simp [hfuel]

/-- C5 (amended): on a match, the fusion pass collapses the matched chain
into one replacement node, deleting the interior nodes, where the
replacement has the fused kind, the chain's first node's inputs and last
node's outputs, but the attributes are NOT always the union of the
matched nodes': MatMul+activation keeps only the MatMul's attributes, and
Conv2D+BatchNorm+ReLU keeps the merge of the Conv2D's and BatchNorm's
(dropping the ReLU's); only LayerNorm+Attention merges all matched
nodes' attributes. -/
theorem C5_fused_node_construction (n1 n2 n3 : GraphNode)
    (rest : List GraphNode) (ft : OpType) :
    ((fuse_matmul_activation n1 n2 ft).op_type = ft ∧
     (fuse_matmul_activation n1 n2 ft).inputs = n1.inputs ∧
     (fuse_matmul_activation n1 n2 ft).outputs = n2.outputs ∧
     (fuse_matmul_activation n1 n2 ft).attributes = n1.attributes) ∧
    ((fuse_layernorm_attention n1 n2).op_type =
        OpType.FUSED_LAYERNORM_ATTENTION ∧
     (fuse_layernorm_attention n1 n2).inputs = n1.inputs ∧
     (fuse_layernorm_attention n1 n2).outputs = n2.outputs ∧
     (fuse_layernorm_attention n1 n2).attributes =
       pyDictMerge n1.attributes n2.attributes) ∧
    ((fuse_conv_bn_relu n1 n2 n3).op_type =
        OpType.FUSED_CONV_BATCHNORM_RELU ∧
     (fuse_conv_bn_relu n1 n2 n3).inputs = n1.inputs ∧
     (fuse_conv_bn_relu n1 n2 n3).outputs = n3.outputs ∧
     (fuse_conv_bn_relu n1 n2 n3).attributes =
       pyDictMerge n1.attributes n2.attributes) ∧
    (n1.op_type = OpType.MATMUL →
      (n2.op_type = OpType.RELU ∧ ft = OpType.FUSED_MATMUL_RELU ∨
       n2.op_type = OpType.GELU ∧ ft = OpType.FUSED_MATMUL_GELU) →
      can_fuse n1 n2 = true →
      (fuseSweep (n1 :: n2 :: rest)).1 =
        (fuseSweep (fuse_matmul_activation n1 n2 ft :: rest)).1) ∧
    (n1.op_type = OpType.LAYERNORM →
      (n2.op_type = OpType.ATTENTION ∨
        n2.op_type = OpType.MULTI_HEAD_ATTENTION) →
      can_fuse n1 n2 = true →
      (fuseSweep (n1 :: n2 :: rest)).1 =
        (fuseSweep (fuse_layernorm_attention n1 n2 :: rest)).1) ∧
    (n1.op_type = OpType.CONV2D → n2.op_type = OpType.BATCHNORM →
      n3.op_type = OpType.RELU → can_fuse_triple n1 n2 n3 = true →
      (fuseSweep (n1 :: n2 :: n3 :: rest)).1 =
        (fuseSweep (fuse_conv_bn_relu n1 n2 n3 :: rest)).1) := by
  refine ⟨⟨rfl, rfl, rfl, rfl⟩, ⟨rfl, rfl, rfl, rfl⟩, ⟨rfl, rfl, rfl, rfl⟩,
    fun h1 h2 h3 => ?_, fun h1 h2 h3 => ?_, fun h1 h2 h3 h4 => ?_⟩
  · rw [fuseSweep_matmul_step n1 n2 rest ft h1 h2 h3]
  · rw [fuseSweep_layernorm_step n1 n2 rest h1 h2 h3]
  · rw [fuseSweep_conv_step n1 n2 n3 rest h1 h2 h3 h4]

/-- C5 witness: the three sweep-level collapse implications instantiated
on concrete matched chains. -/
theorem C5_fusion_witness :
    ((fuseSweep
        [{ id := 0, op_type := OpType.MATMUL, name := "a", inputs := [0, 1],
           outputs := [2], attributes := [("m", 1)] },
         { id := 1, op_type := OpType.RELU, name := "b", inputs := [2],
           outputs := [3], attributes := [("alpha", 7)] }]).1 =
      (fuseSweep
        [fuse_matmul_activation
          { id := 0, op_type := OpType.MATMUL, name := "a", inputs := [0, 1],
            outputs := [2], attributes := [("m", 1)] }
          { id := 1, op_type := OpType.RELU, name := "b", inputs := [2],
            outputs := [3], attributes := [("alpha", 7)] }
          OpType.FUSED_MATMUL_RELU]).1) ∧
    ((fuseSweep
        [{ id := 0, op_type := OpType.LAYERNORM, name := "c", inputs := [0],
           outputs := [1], attributes := [] },
         { id := 1, op_type := OpType.ATTENTION, name := "d", inputs := [1],
           outputs := [2], attributes := [] }]).1 =
      (fuseSweep
        [fuse_layernorm_attention
          { id := 0, op_type := OpType.LAYERNORM, name := "c", inputs := [0],
            outputs := [1], attributes := [] }
          { id := 1, op_type := OpType.ATTENTION, name := "d", inputs := [1],
            outputs := [2], attributes := [] }]).1) ∧
    ((fuseSweep
        [{ id := 0, op_type := OpType.CONV2D, name := "e", inputs := [0],
           outputs := [1], attributes := [] },
         { id := 1, op_type := OpType.BATCHNORM, name := "f", inputs := [1],
           outputs := [2], attributes := [] },
         { id := 2, op_type := OpType.RELU, name := "g", inputs := [2],
           outputs := [3], attributes := [] }]).1 =
      (fuseSweep
        [fuse_conv_bn_relu
          { id := 0, op_type := OpType.CONV2D, name := "e", inputs := [0],
            outputs := [1], attributes := [] }
          { id := 1, op_type := OpType.BATCHNORM, name := "f", inputs := [1],
            outputs := [2], attributes := [] }
          { id := 2, op_type := OpType.RELU, name := "g", inputs := [2],
            outputs := [3], attributes := [] }]).1) := by
  refine ⟨(C5_fused_node_construction _ _
      { id := 2, op_type := OpType.RELU, name := "g", inputs := [2],
        outputs := [3], attributes := [] } [] OpType.FUSED_MATMUL_RELU).2.2.2.1
      rfl (Or.inl ⟨rfl, rfl⟩) (by decide),
    (C5_fused_node_construction _ _
      { id := 2, op_type := OpType.RELU, name := "g", inputs := [2],
        outputs := [3], attributes := [] } [] OpType.FUSED_MATMUL_RELU).2.2.2.2.1
      rfl (Or.inl rfl) (by decide),
    (C5_fused_node_construction _ _ _ [] OpType.FUSED_MATMUL_RELU).2.2.2.2.2
      rfl rfl rfl (by decide)⟩

/-! ## DCE worklist characterization -/

/-- `pushNew` appends the same fresh elements to the reach set and the
append log: they are exactly the candidates not already reached, without
duplicates, and afterwards every candidate is reached. -/
theorem pushNew_spec (is' : List Nat) : ∀ (reach app : List Nat),
    ∃ d, pushNew reach app is' = (reach ++ d, app ++ d) ∧ d.Nodup ∧
      (∀ x ∈ d, x ∈ is' ∧ x ∉ reach) ∧ (∀ x ∈ is', x ∈ reach ∨ x ∈ d) := by
  induction is' with
  | nil => exact fun reach app => ⟨[], by simp [pushNew]⟩
  | cons i is ih =>
    intro reach app
    by_cases hi : i ∈ reach
    · obtain ⟨d, h1, h2, h3, h4⟩ := ih reach app
      refine ⟨d, by simp [pushNew, hi, h1], h2, ?_, ?_⟩
      · exact fun x hx => ⟨List.mem_cons_of_mem _ (h3 x hx).1, (h3 x hx).2⟩
      · intro x hx
        rcases List.mem_cons.1 hx with rfl | hx'
        · exact Or.inl hi
        · exact h4 x hx'
    · obtain ⟨d, h1, h2, h3, h4⟩ := ih (reach ++ [i]) (app ++ [i])
      refine ⟨i :: d, ?_, ?_, ?_, ?_⟩
      · simp [pushNew, hi, h1]
      · exact List.nodup_cons.2 ⟨fun hid => (h3 i hid).2 (by simp), h2⟩
      · intro x hx
        rcases List.mem_cons.1 hx with rfl | hx'
        · exact ⟨List.mem_cons_self _ _, hi⟩
        · refine ⟨List.mem_cons_of_mem _ (h3 x hx').1, fun hr => ?_⟩
          exact (h3 x hx').2 (by simp [hr])
      · intro x hx
        rcases List.mem_cons.1 hx with rfl | hx'
        · exact Or.inr (List.mem_cons_self _ _)
        · rcases h4 x hx' with hr | hd
          · rcases List.mem_append.1 hr with h | h
            · exact Or.inl h
            · simp only [List.mem_singleton] at h
              exact Or.inr (h ▸ List.mem_cons_self _ _)
          · exact Or.inr (List.mem_cons_of_mem _ hd)

/-- Processing one popped tensor `t` appends exactly the fresh inputs of
the nodes producing `t`, and afterwards every input of every producer of
`t` is reached. -/
theorem dceVisit_spec (t : Nat) (nodes : List GraphNode) :
    ∀ (reach app : List Nat),
    ∃ d, dceVisit t reach app nodes = (reach ++ d, app ++ d) ∧ d.Nodup ∧
      (∀ x ∈ d, x ∉ reach ∧ ∃ n ∈ nodes, t ∈ n.outputs ∧ x ∈ n.inputs) ∧
      (∀ n ∈ nodes, t ∈ n.outputs → ∀ x ∈ n.inputs,
        x ∈ reach ∨ x ∈ d) := by
  induction nodes with
  | nil => exact fun reach app => ⟨[], by simp [dceVisit]⟩
  | cons n ns ih =>
    intro reach app
    by_cases ht : t ∈ n.outputs
    · obtain ⟨d1, e1, nd1, mem1, cov1⟩ := pushNew_spec n.inputs reach app
      obtain ⟨d2, e2, nd2, mem2, cov2⟩ := ih (reach ++ d1) (app ++ d1)
      refine ⟨d1 ++ d2, ?_, ?_, ?_, ?_⟩
      · simp [dceVisit, ht, e1, e2]
      · refine nd1.append nd2 (fun x hx1 hx2 => ?_)
        exact (mem2 x hx2).1 (List.mem_append_right _ hx1)
      · intro x hx
        rcases List.mem_append.1 hx with hx1 | hx2
        · exact ⟨(mem1 x hx1).2,
            n, List.mem_cons_self _ _, ht, (mem1 x hx1).1⟩
        · obtain ⟨hnr, m, hm, hmt, hmx⟩ := mem2 x hx2
          exact ⟨fun hr => hnr (List.mem_append_left _ hr),
            m, List.mem_cons_of_mem _ hm, hmt, hmx⟩
      · intro m hm hmt x hx
        rcases List.mem_cons.1 hm with rfl | hm'
        · rcases cov1 x hx with h | h
          · exact Or.inl h
          · exact Or.inr (List.mem_append_left _ h)
        · rcases cov2 m hm' hmt x hx with h | h
          · rcases List.mem_append.1 h with h' | h'
            · exact Or.inl h'
            · exact Or.inr (List.mem_append_left _ h')
          · exact Or.inr (List.mem_append_right _ h)
    · obtain ⟨d, e, nd, mem, cov⟩ := ih reach app
      refine ⟨d, by simp [dceVisit, ht, e], nd, ?_, ?_⟩
      · intro x hx
        obtain ⟨hnr, m, hm, hmt, hmx⟩ := mem x hx
        exact ⟨hnr, m, List.mem_cons_of_mem _ hm, hmt, hmx⟩
      · intro m hm hmt x hx
        rcases List.mem_cons.1 hm with rfl | hm'
        · exact absurd hmt ht
        · exact cov m hm' hmt x hx

/-- The reach set only grows along the worklist loop. -/
theorem dceLoop_mono (nodes : List GraphNode) (fuel : Nat) :
    ∀ (reach wl : List Nat) (x : Nat), x ∈ reach →
      x ∈ dceLoop nodes fuel reach wl := by
  induction fuel with
  | zero => intro reach wl x hx; simpa [dceLoop] using hx
  | succ f ih =>
    intro reach wl x hx
    cases wl with
    | nil => simpa [dceLoop] using hx
    | cons t wl' =>
      obtain ⟨d, e, -, -, -⟩ := dceVisit_spec t nodes reach []
      simp only [dceLoop, e]
      exact ih _ _ x (List.mem_append_left _ hx)

/-- Soundness: everything the worklist loop reaches is backward-reachable,
provided the starting reach set and worklist are. -/
theorem dceLoop_sound (nodes : List GraphNode) (outs : List Nat)
    (fuel : Nat) : ∀ (reach wl : List Nat),
    (∀ x ∈ reach, Reachable nodes outs x) →
    (∀ x ∈ wl, Reachable nodes outs x) →
    ∀ x ∈ dceLoop nodes fuel reach wl, Reachable nodes outs x := by
  induction fuel with
  | zero => intro reach wl hr _ x hx; exact hr x (by simpa [dceLoop] using hx)
  | succ f ih =>
    intro reach wl hr hw x hx
    cases wl with
    | nil => exact hr x (by simpa [dceLoop] using hx)
    | cons t wl' =>
      obtain ⟨d, e, -, mem, -⟩ := dceVisit_spec t nodes reach []
      simp only [dceLoop, e] at hx
      refine ih _ _ ?_ ?_ x hx
      · intro y hy
        rcases List.mem_append.1 hy with h | h
        · exact hr y h
        · obtain ⟨-, n, hn, hnt, hny⟩ := mem y h
          exact Reachable.step hn hny hnt (hw t (List.mem_cons_self _ _))
      · intro y hy
        rcases List.mem_append.1 hy with h | h
        · obtain ⟨-, n, hn, hnt, hny⟩ := mem y (List.mem_reverse.1 (by simpa using h))
          exact Reachable.step hn hny hnt (hw t (List.mem_cons_self _ _))
        · exact hw y (List.mem_cons_of_mem _ h)

/-- With enough fuel the worklist loop runs to saturation: the final
reach set is closed under adding the inputs of any producer of a reached
tensor. -/
theorem dceLoop_closed (nodes : List GraphNode) (A : Finset Nat)
    (hA : ∀ n ∈ nodes, ∀ x ∈ n.inputs, x ∈ A) :
    ∀ (fuel : Nat) (reach wl : List Nat),
    wl.length + (A \ reach.toFinset).card ≤ fuel →
    (∀ n ∈ nodes, ∀ u ∈ n.outputs, u ∈ reach →
      u ∈ wl ∨ ∀ x ∈ n.inputs, x ∈ reach) →
    ∀ n ∈ nodes, ∀ u ∈ n.outputs, u ∈ dceLoop nodes fuel reach wl →
      ∀ x ∈ n.inputs, x ∈ dceLoop nodes fuel reach wl := by
  intro fuel
  induction fuel with
  | zero =>
    intro reach wl hfuel hinv n hn u hu hur x hx
    have hwl : wl = [] := List.length_eq_zero.1 (by omega)
    subst hwl
    simp only [dceLoop] at hur ⊢
    rcases hinv n hn u hu hur with h | h
    · exact absurd h (List.not_mem_nil u)
    · exact h x hx
  | succ f ih =>
    intro reach wl hfuel hinv n hn u hu hur x hx
    cases wl with
    | nil =>
      simp only [dceLoop] at hur ⊢
      rcases hinv n hn u hu hur with h | h
      · exact absurd h (List.not_mem_nil u)
      · exact h x hx
    | cons t wl' =>
      obtain ⟨d, e, nd, mem, cov⟩ := dceVisit_spec t nodes reach []
      simp only [dceLoop, e] at hur ⊢
      simp only [List.nil_append] at hur ⊢
      have hdA : d.toFinset ⊆ A \ reach.toFinset := by
        intro y hy
        obtain ⟨hyr, m, hm, -, hmy⟩ := mem y (List.mem_toFinset.1 hy)
        exact Finset.mem_sdiff.2 ⟨hA m hm y hmy, fun hc =>
          hyr (List.mem_toFinset.1 hc)⟩
      have hsd : A \ (reach ++ d).toFinset =
          (A \ reach.toFinset) \ d.toFinset := by
        ext y
        simp only [Finset.mem_sdiff, List.mem_toFinset, List.mem_append]
        tauto
      have hcard : (A \ (reach ++ d).toFinset).card =
          (A \ reach.toFinset).card - d.length := by
        rw [hsd, Finset.card_sdiff hdA, List.toFinset_card_of_nodup nd]
      have hdle : d.length ≤ (A \ reach.toFinset).card := by
        rw [← List.toFinset_card_of_nodup nd]
        exact Finset.card_le_card hdA
      have hfuel' : (d.reverse ++ wl').length +
          (A \ (reach ++ d).toFinset).card ≤ f := by
        simp only [List.length_append, List.length_reverse, hcard]
        simp only [List.length_cons] at hfuel
        omega
      have hinv' : ∀ m ∈ nodes, ∀ u ∈ m.outputs, u ∈ reach ++ d →
          u ∈ d.reverse ++ wl' ∨ ∀ y ∈ m.inputs, y ∈ reach ++ d := by
        intro m hm v hv hvr
        rcases List.mem_append.1 hvr with h | h
        · rcases hinv m hm v hv h with hw | hr
          · rcases List.mem_cons.1 hw with rfl | hw'
            · refine Or.inr (fun y hy => ?_)
              rcases cov m hm hv y hy with h' | h'
              · exact List.mem_append_left _ h'
              · exact List.mem_append_right _ h'
            · exact Or.inl (List.mem_append_right _ hw')
          · exact Or.inr (fun y hy => List.mem_append_left _ (hr y hy))
        · exact Or.inl (List.mem_append_left _ (List.mem_reverse.2 h))
      exact ih (reach ++ d) (d.reverse ++ wl') hfuel' hinv' n hn u hu hur x hx

/-! ## Reachability characterization and C3 -/

/-- Everything in the computed reach set is backward-reachable. -/
theorem reachList_sound (g : ComputationalGraph) :
    ∀ x ∈ reachList g, Reachable g.nodes g.output_ids x :=
  dceLoop_sound g.nodes g.output_ids (dceFuel g) g.output_ids g.output_ids
    (fun _ hx => Reachable.base hx) (fun _ hx => Reachable.base hx)

/-- The computed reach set is closed under the backward step. -/
theorem reachList_closed (g : ComputationalGraph) :
    ∀ n ∈ g.nodes, ∀ u ∈ n.outputs, u ∈ reachList g →
      ∀ x ∈ n.inputs, x ∈ reachList g := by
  refine dceLoop_closed g.nodes (allInputs g.nodes).toFinset ?_ (dceFuel g)
    g.output_ids g.output_ids ?_ ?_
  · intro n hn x hx
    simp only [List.mem_toFinset, allInputs, List.mem_flatten]
    exact ⟨n.inputs, List.mem_map.2 ⟨n, hn, rfl⟩, hx⟩
  · have h1 : ((allInputs g.nodes).toFinset \
        g.output_ids.toFinset).card ≤ (allInputs g.nodes).toFinset.card :=
      Finset.card_le_card Finset.sdiff_subset
    have h2 : (allInputs g.nodes).toFinset.card ≤
        (allInputs g.nodes).length := List.toFinset_card_le _
    have h3 : (allInputs g.nodes).length =
        (g.nodes.map (fun n => n.inputs.length)).sum := by
      simp only [allInputs, List.length_flatten, List.map_map]
      rfl
    simp only [dceFuel]
    omega
  · intro n _ u _ hu
    exact Or.inl hu

/-- Every backward-reachable tensor ends up in the computed reach set. -/
theorem reachList_complete (g : ComputationalGraph) (x : Nat)
    (h : Reachable g.nodes g.output_ids x) : x ∈ reachList g := by
  induction h with
  | base ht => exact dceLoop_mono g.nodes (dceFuel g) g.output_ids _ _ ht
  | step hn hin hout _ ih => exact reachList_closed g _ hn _ hout ih _ hin

/-- The worklist set is exactly backward reachability. -/
theorem reachList_iff (g : ComputationalGraph) (x : Nat) :
    x ∈ reachList g ↔ Reachable g.nodes g.output_ids x :=
  ⟨reachList_sound g x, reachList_complete g x⟩

/-- Membership after DCE: kept iff some output is backward-reachable. -/
theorem mem_dce_iff (g : ComputationalGraph) (n : GraphNode) :
    n ∈ (dead_code_elimination g).1.nodes ↔
      n ∈ g.nodes ∧ ∃ t ∈ n.outputs, Reachable g.nodes g.output_ids t := by
  simp only [dead_code_elimination, List.mem_filter, List.any_eq_true,
    decide_eq_true_eq, reachList_iff]

/-- C3 (amended): after dead code elimination, a node is kept exactly
when at least one of its outputs is backward-reachable from the graph
outputs; nodes producing no live tensor are removed.  (The original
claim, that EVERY output of every kept node is live and that the result
is minimal, is refuted by `C3_counterexample`.) -/
theorem C3_dce_keeps_exactly_live_producers (g : ComputationalGraph)
    (n : GraphNode) :
    n ∈ (dead_code_elimination g).1.nodes ↔
      n ∈ g.nodes ∧ ∃ t ∈ n.outputs, Reachable g.nodes g.output_ids t :=
  mem_dce_iff g n

/-- C3 counterexample: in `gDeadOutput` the single node (producing the
graph output 1 and the never-read tensor 2) survives DCE, yet its output
2 is not backward-reachable from the graph outputs — so not every output
tensor of every kept node is live. -/
theorem C3_counterexample :
    (dead_code_elimination gDeadOutput).1.nodes = gDeadOutput.nodes ∧
    (∃ n ∈ (dead_code_elimination gDeadOutput).1.nodes, 2 ∈ n.outputs) ∧
    ¬ Reachable gDeadOutput.nodes gDeadOutput.output_ids 2 := by
  refine ⟨by decide, by decide, fun h => ?_⟩
  have h2 : 2 ∈ reachList gDeadOutput := reachList_complete gDeadOutput 2 h
  revert h2
  decide

/-! ## Idempotence of the level-0/1 pipeline (C6) -/

/-- Backward reachability is monotone in the node list. -/
theorem Reachable_sub {nodes' nodes : List GraphNode} {outs : List Nat}
    {t : Nat} (hsub : ∀ n ∈ nodes', n ∈ nodes)
    (h : Reachable nodes' outs t) : Reachable nodes outs t := by
  induction h with
  | base ht => exact .base ht
  | step hn hin hout _ ih => exact .step (hsub _ hn) hin hout ih

/-- DCE never deletes a node taking part in a backward-reachability
chain, so reachability is preserved by the pass. -/
theorem Reachable_dce (g : ComputationalGraph) (t : Nat)
    (h : Reachable g.nodes g.output_ids t) :
    Reachable (dead_code_elimination g).1.nodes g.output_ids t := by
  induction h with
  | base ht => exact .base ht
  | step hn hin hout hr ih =>
    exact .step ((mem_dce_iff g _).2 ⟨hn, _, hout, hr⟩) hin hout ih

/-- The reach set recomputed on the DCE'd graph is the same set. -/
theorem reach_dce_mem (g : ComputationalGraph) (t : Nat) :
    t ∈ reachList (dead_code_elimination g).1 ↔ t ∈ reachList g := by
  rw [reachList_iff, reachList_iff]
  constructor
  · intro h
    exact Reachable_sub (fun n hn => List.mem_of_mem_filter hn) h
  · intro h
    exact Reachable_dce g t h

/-- Dead code elimination is idempotent. -/
theorem dce_idem (g : ComputationalGraph) :
    dead_code_elimination (dead_code_elimination g).1 =
      ((dead_code_elimination g).1, 0) := by
  have hfix : (dead_code_elimination g).1.nodes.filter
      (fun n => n.outputs.any (· ∈ reachList (dead_code_elimination g).1)) =
      (dead_code_elimination g).1.nodes := by
    apply List.filter_eq_self.2
    intro n hn
    obtain ⟨hng, t, ht, hr⟩ := (mem_dce_iff g n).1 hn
    simp only [List.any_eq_true, decide_eq_true_eq]
    exact ⟨t, ht, (reach_dce_mem g t).2 (reachList_complete g t hr)⟩
  have e : dead_code_elimination (dead_code_elimination g).1 =
      ({ (dead_code_elimination g).1 with
          nodes := (dead_code_elimination g).1.nodes.filter
            (fun n => n.outputs.any
              (· ∈ reachList (dead_code_elimination g).1)) },
       (dead_code_elimination g).1.nodes.length -
        ((dead_code_elimination g).1.nodes.filter
          (fun n => n.outputs.any
            (· ∈ reachList (dead_code_elimination g).1))).length) := rfl
  rw [e, hfix]
  simp

/-- Folding a graph that has already been folded (and possibly further
thinned by DCE) does nothing. -/
theorem constant_folding_noop (G : ComputationalGraph)
    (h : ∀ n ∈ G.nodes,
      (n.op_type = OpType.ADD ∨ n.op_type = OpType.MUL) → n.inputs ≠ []) :
    constant_folding G = (G, 0) := by
  show ({ G with nodes := (cfoldSweep [] G.nodes).1 },
    (cfoldSweep [] G.nodes).2) = (G, 0)
  rw [cfoldSweep_noop G.nodes h]

/-- The level-1 pipeline (constant folding then DCE) is idempotent. -/
theorem compile_one_idem (g : ComputationalGraph) :
    compile 1 (compile 1 g) = compile 1 g := by
  have e1 : ∀ G : ComputationalGraph, compile 1 G =
      { (dead_code_elimination (constant_folding G).1).1 with
        optimized := true } := fun G => rfl
  rw [e1, e1]
  have hnn : ∀ n ∈ ({ (dead_code_elimination (constant_folding g).1).1 with
      optimized := true } : ComputationalGraph).nodes,
      (n.op_type = OpType.ADD ∨ n.op_type = OpType.MUL) → n.inputs ≠ [] := by
    intro n hn hop
    exact cfoldSweep_no_nullary [] g.nodes n (List.mem_of_mem_filter hn) hop
  rw [constant_folding_noop _ hnn]
  have e2 : dead_code_elimination
      ({ (dead_code_elimination (constant_folding g).1).1 with
        optimized := true } : ComputationalGraph) =
      ({ (dead_code_elimination
          (dead_code_elimination (constant_folding g).1).1).1 with
        optimized := true },
       (dead_code_elimination
          (dead_code_elimination (constant_folding g).1).1).2) := rfl
  rw [e2, dce_idem]

/-- C6 (amended): re-running `compile` at the same level always leaves
the tensor table and the input/output id lists identical, and at
optimization levels 0 and 1 the whole graph (node list included) is
identical; at level 2 the node list can differ, because fusion can
orphan another producer of the elided intermediate tensor (possible only
when the graph violates single-static-assignment) which the second run's
DCE then removes (`C6_counterexample`). -/
theorem C6_recompile (g : ComputationalGraph) (lvl : Nat) :
    (compile lvl (compile lvl g)).tensors = (compile lvl g).tensors ∧
    (compile lvl (compile lvl g)).input_ids = (compile lvl g).input_ids ∧
    (compile lvl (compile lvl g)).output_ids = (compile lvl g).output_ids ∧
    (lvl ≤ 1 → compile lvl (compile lvl g) = compile lvl g) := by
  refine ⟨(compile_frame lvl _).1, (compile_frame lvl _).2.1,
    (compile_frame lvl _).2.2.1, fun hlvl => ?_⟩
  interval_cases lvl
  · rfl
  · exact compile_one_idem g

/-- C6 witness: level-1 recompilation of the dual-producer graph is a
no-op (while level 2 on the same graph is not, per the counterexample). -/
theorem C6_witness :
    compile 1 (compile 1 gDualProducer) = compile 1 gDualProducer ∧
    (compile 2 (compile 2 gDualProducer)).tensors =
      (compile 2 gDualProducer).tensors :=
  ⟨(C6_recompile gDualProducer 1).2.2.2 (by decide),
   (C6_recompile gDualProducer 2).1⟩

/-! ## Profiler lemmas (C7) -/

/-- Looking up the key just added to the per-op-kind dict. -/
theorem otLookup_opTimesAdd_self (d : List (OpType × List ℚ)) (k : OpType)
    (t : ℚ) :
    otLookup (opTimesAdd d k t) k = some ((otLookup d k).getD [] ++ [t]) := by
  induction d with
  | nil => simp [opTimesAdd, otLookup]
  | cons p rest ih =>
    obtain ⟨k', ts⟩ := p
    by_cases h : k' = k
    · subst h
      simp [opTimesAdd, otLookup]
    · simp [opTimesAdd, otLookup, h, ih]

/-- Other keys are untouched by `opTimesAdd`. -/
theorem otLookup_opTimesAdd_ne (d : List (OpType × List ℚ)) (k : OpType)
    (t : ℚ) (k' : OpType) (h : k' ≠ k) :
    otLookup (opTimesAdd d k t) k' = otLookup d k' := by
  induction d with
  | nil => simp [opTimesAdd, otLookup, Ne.symm h]
  | cons p rest ih =>
    obtain ⟨k'', ts⟩ := p
    by_cases hk : k'' = k
    · subst hk
      simp [opTimesAdd, otLookup, Ne.symm h]
    · by_cases hk2 : k'' = k'
      · subst hk2
        simp [opTimesAdd, otLookup, hk]
      · simp [opTimesAdd, otLookup, hk, hk2, ih]

/-- Accumulating over one more node. -/
theorem opTimes_append (l : List GraphNode) (n : GraphNode) :
    opTimes (l ++ [n]) =
      opTimesAdd (opTimes l) n.op_type (simTime n.op_type) := by
  simp [opTimes, List.foldl_append]

/-- The per-op-kind dict holds, for each kind occurring in the list,
exactly one entry: the simulated time replicated once per node of that
kind (and no entry for kinds that do not occur). -/
theorem opTimes_lookup (l : List GraphNode) (k : OpType) :
    otLookup (opTimes l) k =
      if (l.filter (fun n => n.op_type = k)).length = 0 then none
      else some (List.replicate
        (l.filter (fun n => n.op_type = k)).length (simTime k)) := by
  induction l using List.reverseRecOn with
  | nil => simp [opTimes, otLookup]
  | append_singleton l n ih =>
    rw [opTimes_append]
    by_cases h : n.op_type = k
    · rw [h, otLookup_opTimesAdd_self, ih]
      have hf : ((l ++ [n]).filter (fun m => m.op_type = k)).length =
          (l.filter (fun m => m.op_type = k)).length + 1 := by
        simp [List.filter_append, h]
      rw [hf]
      by_cases hc : (l.filter (fun m => m.op_type = k)).length = 0
      · simp [hc]
      · simp only [hc, if_false, Option.getD_some, Nat.add_one_ne_zero,
          if_neg, ite_false]
        rw [← List.replicate_succ']
    · rw [otLookup_opTimesAdd_ne _ _ _ _ (fun hk => h hk.symm), ih]
      have hf : ((l ++ [n]).filter (fun m => m.op_type = k)) =
          l.filter (fun m => m.op_type = k) := by
        simp [List.filter_append, h]
      rw [hf]

/-- The keys added by `opTimesAdd`. -/
theorem opTimesAdd_keys (d : List (OpType × List ℚ)) (k : OpType) (t : ℚ) :
    (opTimesAdd d k t).map Prod.fst =
      if k ∈ d.map Prod.fst then d.map Prod.fst
      else d.map Prod.fst ++ [k] := by
  induction d with
  | nil => simp [opTimesAdd]
  | cons p rest ih =>
    obtain ⟨k', ts⟩ := p
    by_cases h : k' = k
    · subst h
      simp [opTimesAdd]
    · have hk2 : (k ∈ k' :: rest.map Prod.fst) ↔ k ∈ rest.map Prod.fst := by
        simp [List.mem_cons, Ne.symm h]
      simp only [opTimesAdd, if_neg h, List.map_cons, ih]
      by_cases hm : k ∈ rest.map Prod.fst
      · simp [hm, hk2]
      · simp [hm, hk2]

/-- The per-op-kind dict never holds two entries for one key. -/
theorem opTimes_keys_nodup (l : List GraphNode) :
    ((opTimes l).map Prod.fst).Nodup := by
  induction l using List.reverseRecOn with
  | nil => simp [opTimes]
  | append_singleton l n ih =>
    rw [opTimes_append, opTimesAdd_keys]
    split
    · exact ih
    · rename_i hk
      simp [List.nodup_append, ih, hk]

/-- With distinct keys, membership determines the lookup. -/
theorem mem_otLookup {d : List (OpType × List ℚ)}
    (hnd : (d.map Prod.fst).Nodup) {k : OpType} {ts : List ℚ}
    (h : (k, ts) ∈ d) : otLookup d k = some ts := by
  induction d with
  | nil => cases h
  | cons p rest ih =>
    obtain ⟨k', ts'⟩ := p
    simp only [List.map_cons, List.nodup_cons] at hnd
    rcases List.mem_cons.1 h with he | hm
    · have hk : k = k' := congrArg Prod.fst he
      have hts : ts = ts' := congrArg Prod.snd he
      subst hk
      simp [otLookup, hts]
    · have hk : k' ≠ k := by
        rintro rfl
        exact hnd.1 (List.mem_map.2 ⟨(k', ts), hm, rfl⟩)
      simp [otLookup, hk, ih hnd.2 hm]

/-- A successful lookup comes from an entry. -/
theorem otLookup_mem {d : List (OpType × List ℚ)} {k : OpType}
    {ts : List ℚ} (h : otLookup d k = some ts) : (k, ts) ∈ d := by
  induction d with
  | nil => simp [otLookup] at h
  | cons p rest ih =>
    obtain ⟨k', ts'⟩ := p
    by_cases hk : k' = k
    · subst hk
      rw [otLookup, if_pos rfl] at h
      have hts : ts' = ts := Option.some.inj h
      subst hts
      exact List.mem_cons_self _ _
    · simp only [otLookup, if_neg hk] at h
      exact List.mem_cons_of_mem _ (ih h)

/-- Summing a replicated rational. -/
theorem replicate_sum (c : Nat) (x : ℚ) :
    (List.replicate c x).sum = c * x := by
  simp [List.sum_replicate, nsmul_eq_mul]

/-- C7 (amended): `profile_graph` leaves the tensor table, the
input/output id lists, the `optimized` flag, and every node's identity,
kind, name, inputs, outputs, attributes and memory field unchanged, but
it DOES overwrite each node's `execution_time_ms` with the simulated
time for its kind (so it is not side-effect-free on the graph); the
returned report carries the node count, the total simulated time, and
per op kind the count, total time, average time and percentage of the
total. -/
theorem C7_profile_effects (g : ComputationalGraph) :
    (profile_graph g).1.tensors = g.tensors ∧
    (profile_graph g).1.input_ids = g.input_ids ∧
    (profile_graph g).1.output_ids = g.output_ids ∧
    (profile_graph g).1.optimized = g.optimized ∧
    (profile_graph g).1.nodes = g.nodes.map
      (fun n => { n with execution_time_ms := simTime n.op_type }) ∧
    (profile_graph g).2.num_operations = g.nodes.length ∧
    (profile_graph g).2.total_execution_time_ms =
      (g.nodes.map (fun n => simTime n.op_type)).sum ∧
    (profile_graph g).2.total_memory_mb = 0 ∧
    (∀ (k : OpType) (s : OpStat),
      (k, s) ∈ (profile_graph g).2.op_breakdown →
      s.count = (g.nodes.filter (fun n => n.op_type = k)).length ∧
      0 < s.count ∧
      s.total_time_ms = s.count * simTime k ∧
      s.avg_time_ms = simTime k ∧
      s.percentage =
        (if 0 < (g.nodes.map (fun n => simTime n.op_type)).sum
         then s.total_time_ms /
           (g.nodes.map (fun n => simTime n.op_type)).sum * 100
         else 0)) ∧
    (∀ k : OpType, (∃ n ∈ g.nodes, n.op_type = k) ↔
      ∃ s : OpStat, (k, s) ∈ (profile_graph g).2.op_breakdown) := by
  have htot : ((g.nodes.map
      (fun n => ({ n with execution_time_ms := simTime n.op_type } :
        GraphNode))).map (fun n => n.execution_time_ms)).sum =
      (g.nodes.map (fun n => simTime n.op_type)).sum := by
    rw [List.map_map]
    rfl
  refine ⟨rfl, rfl, rfl, rfl, rfl, by simp [profile_graph], ?_, rfl, ?_, ?_⟩
  · exact htot
  · intro k s hmem
    obtain ⟨⟨p1, p2⟩, hp, hfp⟩ := List.mem_map.1 hmem
    have hk : p1 = k := congrArg Prod.fst hfp
    subst hk
    have hs := congrArg Prod.snd hfp
    simp only at hs
    subst hs
    have hlook : otLookup (opTimes g.nodes) p1 = some p2 :=
      mem_otLookup (opTimes_keys_nodup g.nodes) hp
    rw [opTimes_lookup] at hlook
    by_cases hc : (g.nodes.filter (fun n => n.op_type = p1)).length = 0
    · rw [if_pos hc] at hlook
      cases hlook
    · rw [if_neg hc] at hlook
      have hts : p2 = List.replicate
          (g.nodes.filter (fun n => n.op_type = p1)).length (simTime p1) :=
        (Option.some.inj hlook).symm
      have hcq : ((g.nodes.filter (fun n => n.op_type = p1)).length : ℚ) ≠
          0 := Nat.cast_ne_zero.2 hc
      refine ⟨?_, ?_, ?_, ?_, ?_⟩
      · simp [hts]
      · simp only [hts, List.length_replicate]
        omega
      · simp [hts, replicate_sum]
      · simp only [hts, replicate_sum, List.length_replicate]
        exact mul_div_cancel_left₀ _ hcq
      · simp only [hts, replicate_sum, List.length_replicate, htot]
  · intro k
    constructor
    · rintro ⟨n, hn, hk⟩
      have hmemf : n ∈ g.nodes.filter (fun m => m.op_type = k) :=
        List.mem_filter.2 ⟨hn, by simp [hk]⟩
      have hc : (g.nodes.filter (fun m => m.op_type = k)).length ≠ 0 := by
        have := List.length_pos.2 (List.ne_nil_of_mem hmemf)
        omega
      have hlook := opTimes_lookup g.nodes k
      rw [if_neg hc] at hlook
      have hmm : (k, List.replicate
          (g.nodes.filter (fun m => m.op_type = k)).length (simTime k)) ∈
          opTimes g.nodes := otLookup_mem hlook
      exact ⟨_, List.mem_map.2 ⟨_, hmm, rfl⟩⟩
    · rintro ⟨s, hs⟩
      obtain ⟨⟨p1, p2⟩, hp, hfp⟩ := List.mem_map.1 hs
      have hk : p1 = k := congrArg Prod.fst hfp
      subst hk
      have hlook : otLookup (opTimes g.nodes) p1 = some p2 :=
        mem_otLookup (opTimes_keys_nodup g.nodes) hp
      rw [opTimes_lookup] at hlook
      by_cases hc : (g.nodes.filter (fun n => n.op_type = p1)).length = 0
      · rw [if_pos hc] at hlook
        cases hlook
      · have hne : g.nodes.filter (fun n => n.op_type = p1) ≠ [] := by
          intro hemp
          exact hc (by simp [hemp])
        obtain ⟨n, hnf⟩ := List.exists_mem_of_ne_nil _ hne
        have := List.mem_filter.1 hnf
        exact ⟨n, this.1, by simpa using this.2⟩

/-- C7 witness: the profiling report of the Scenario 1 graph has two
operations, and its MatMul breakdown entry counts one node with average
time equal to the simulated MatMul time. -/
theorem C7_witness :
    (profile_graph gScenario1).2.num_operations = 2 ∧
    ∃ s : OpStat,
      (OpType.MATMUL, s) ∈ (profile_graph gScenario1).2.op_breakdown ∧
      s.count = 1 ∧ s.avg_time_ms = simTime OpType.MATMUL := by
  obtain ⟨-, -, -, -, -, hnum, -, -, hbd, hex⟩ := C7_profile_effects gScenario1
  refine ⟨hnum.trans (by decide), ?_⟩
  obtain ⟨s, hs⟩ := (hex OpType.MATMUL).1
    ⟨{ id := 0, op_type := OpType.MATMUL, name := "mm", inputs := [0, 1],
       outputs := [2], attributes := [] }, by decide, rfl⟩
  have h := hbd OpType.MATMUL s hs
  exact ⟨s, hs, h.1.trans (by decide), h.2.2.2.1⟩

end LightOS
